import Mathlib

/-!
Verification development for the API-key rotation and quota-tracking core of the
image-compression dashboard. The definitions below are a shallow embedding of the
server-side TypeScript: the `ApiKeyManager` class (rotation state, selection,
usage recording, key add and remove, usage reporting), the `TinyPNGService`
dispatcher (`compressImage`), and the `POST /api/upload` batch loop from the
route registration. Persistence (`saveConfig` and `loadConfig`) writes the same
in-memory state to disk and is not modelled; the external tinify client is
modelled as an explicit behaviour parameter.
-/

namespace OptimizeImage

/-- Usage table: models the JSON object `rateLimits.used : Record<string, number>`
of the configuration as an association list from key to count. -/
abbrev UsedMap := List (String × Nat)

/-- Models the JavaScript read `used[key]` on an object: the value stored at the
first matching entry, if any. -/
def lookupUsed : UsedMap → String → Option Nat
  | [], _ => none
  | (k, v) :: rest, key => if k = key then some v else lookupUsed rest key

/-- Models the read `rateLimits.used[key] || 0`: a missing entry counts as 0. -/
def getUsed (m : UsedMap) (key : String) : Nat :=
  (lookupUsed m key).getD 0

/-- Models the JavaScript assignment `used[key] = v`: replaces the existing entry
or appends a new one. -/
def setUsed : UsedMap → String → Nat → UsedMap
  | [], key, v => [(key, v)]
  | (k, w) :: rest, key, v =>
      if k = key then (k, v) :: rest else (k, w) :: setUsed rest key v

/-- Models `delete used[key]`. -/
def deleteUsed : UsedMap → String → UsedMap
  | [], _ => []
  | (k, w) :: rest, key =>
      if k = key then deleteUsed rest key else (k, w) :: deleteUsed rest key

/-- Models the `rateLimits` part of the `tinypng` configuration: one global
`monthly` ceiling and the per-key usage table. -/
structure RateLimits where
  monthly : Nat
  used : UsedMap
  deriving DecidableEq, Repr

/-- Models `ApiKeyConfig.tinypng`, the whole mutable state of `ApiKeyManager`:
the ordered key sequence, the rotation cursor `currentIndex`, and the rate
limits. -/
structure TinypngConfig where
  keys : List String
  currentIndex : Nat
  rateLimits : RateLimits
  deriving DecidableEq, Repr

/-- One iteration of the scan loop of `getNextAvailableKey` at loop counter `i`:
computes `keyIndex = (currentIndex + i) % keys.length`, reads that key and its
usage, and reports the hit `(keyIndex, key)` when `used < monthly`. -/
def scanStep (keys : List String) (currentIndex monthly : Nat) (used : UsedMap)
    (i : Nat) : Option (Nat × String) :=
  let keyIndex := (currentIndex + i) % keys.length
  match keys[keyIndex]? with
  | some key => if getUsed used key < monthly then some (keyIndex, key) else none
  | none => none

/-- Models `ApiKeyManager.getNextAvailableKey`: scans at most `keys.length`
positions starting from `currentIndex`, returns the first key whose usage is
strictly below the monthly limit and persists `currentIndex` at the position of
that key; returns `none` and leaves the state untouched when every key is
exhausted. -/
def getNextAvailableKey (c : TinypngConfig) : Option String × TinypngConfig :=
  match (List.range c.keys.length).findSome?
      (scanStep c.keys c.currentIndex c.rateLimits.monthly c.rateLimits.used) with
  | some (keyIndex, key) => (some key, { c with currentIndex := keyIndex })
  | none => (none, c)

/-- Models `ApiKeyManager.recordUsage`: the entry is first created at 0 when the
stored value is falsy (absent or 0), then incremented by one. -/
def recordUsage (c : TinypngConfig) (apiKey : String) : TinypngConfig :=
  let m0 := c.rateLimits.used
  let m1 := if getUsed m0 apiKey = 0 then setUsed m0 apiKey 0 else m0
  let m2 := setUsed m1 apiKey (getUsed m1 apiKey + 1)
  { c with rateLimits := { c.rateLimits with used := m2 } }

/-- Models `ApiKeyManager.addApiKey`: a no-op when the key is already in the
sequence, otherwise the key is appended and its usage entry set to 0. -/
def addApiKey (c : TinypngConfig) (apiKey : String) : TinypngConfig :=
  if apiKey ∈ c.keys then c
  else
    { c with
      keys := c.keys ++ [apiKey],
      rateLimits := { c.rateLimits with used := setUsed c.rateLimits.used apiKey 0 } }

/-- Models `ApiKeyManager.removeApiKey`: filters the key out of the sequence,
deletes its usage entry, and resets `currentIndex` to 0 when it is out of bounds
for the shortened sequence. -/
def removeApiKey (c : TinypngConfig) (apiKey : String) : TinypngConfig :=
  let keys1 := c.keys.filter (fun key => key != apiKey)
  let used1 := deleteUsed c.rateLimits.used apiKey
  let idx1 := if keys1.length ≤ c.currentIndex then 0 else c.currentIndex
  { keys := keys1, currentIndex := idx1,
    rateLimits := { c.rateLimits with used := used1 } }

/-- One row of the report produced by `getKeyUsage`. -/
structure KeyUsage where
  key : String
  used : Nat
  limit : Nat
  deriving DecidableEq, Repr

/-- Models `ApiKeyManager.getKeyUsage`: one row per key in sequence order, each
row carrying the single global monthly limit. -/
def getKeyUsage (c : TinypngConfig) : List KeyUsage :=
  c.keys.map (fun key =>
    { key := key, used := getUsed c.rateLimits.used key,
      limit := c.rateLimits.monthly })

/-- Models `ApiKeyManager.resetMonthlyUsage`: clears the usage table. -/
def resetMonthlyUsage (c : TinypngConfig) : TinypngConfig :=
  { c with rateLimits := { c.rateLimits with used := [] } }

/-- Error classes of the external tinify client: `AccountError`, `ClientError`,
`ServerError`, `ConnectionError`, and any other thrown error. -/
inductive TinifyError where
  | accountError (message : String)
  | clientError (message : String)
  | serverError (message : String)
  | connectionError (message : String)
  | otherError (message : String)
  deriving DecidableEq, Repr

/-- Behaviour of the external tinify client as observed by `compressImage`: what
`tinify.validate()` does once `tinify.key` is set to a given key, and what
`fromBuffer(...).toBuffer()` does for a given key and payload. Buffers are byte
lists; a buffer size is its length. -/
structure ProviderBehavior where
  validate : String → Except TinifyError Unit
  compress : String → List Nat → Except TinifyError (List Nat)

/-- Classified failures thrown by `compressImage`, one constructor per distinct
`throw new Error(...)` site. -/
inductive CompressionError where
  | quotaExhausted
  | providerAccountError (message : String)
  | providerClientError (message : String)
  | providerServerError (message : String)
  | providerConnectionError (message : String)
  | providerOtherError (message : String)
  deriving DecidableEq, Repr

/-- Models the catch block of `compressImage`: which classified error is
rethrown for a given tinify error. -/
def classifyTinifyError : TinifyError → CompressionError
  | .accountError m => .providerAccountError m
  | .clientError m => .providerClientError m
  | .serverError m => .providerServerError m
  | .connectionError m => .providerConnectionError m
  | .otherError m => .providerOtherError m

/-- Message of the `Error` thrown by `compressImage`, exactly as the source
builds it. -/
def errorMessage : CompressionError → String
  | .quotaExhausted => "No available API keys. All keys have reached their monthly limit."
  | .providerAccountError m => "TinyPNG account error: " ++ m
  | .providerClientError m => "TinyPNG client error: " ++ m
  | .providerServerError m => "TinyPNG server error: " ++ m
  | .providerConnectionError m => "TinyPNG connection error: " ++ m
  | .providerOtherError m => "TinyPNG compression failed: " ++ m

/-- Successful return value of `compressImage`. -/
structure CompressResult where
  compressedBuffer : List Nat
  originalSize : Nat
  compressedSize : Nat
  deriving DecidableEq, Repr

/-- Models `TinyPNGService.compressImage`: select a key (fail with the quota
message when none), validate it against the provider, submit the payload, and
record usage only after a successful compression; provider failures are caught,
classified and rethrown without recording usage. The returned configuration is
the key-manager state after the call. -/
def compressImage (p : ProviderBehavior) (c : TinypngConfig) (buffer : List Nat) :
    Except CompressionError CompressResult × TinypngConfig :=
  match getNextAvailableKey c with
  | (none, c1) => (Except.error CompressionError.quotaExhausted, c1)
  | (some apiKey, c1) =>
    match p.validate apiKey with
    | Except.error e => (Except.error (classifyTinifyError e), c1)
    | Except.ok _ =>
      match p.compress apiKey buffer with
      | Except.error e => (Except.error (classifyTinifyError e), c1)
      | Except.ok compressedData =>
        (Except.ok { compressedBuffer := compressedData,
                     originalSize := buffer.length,
                     compressedSize := compressedData.length },
         recordUsage c1 apiKey)

/-- One multer file of an upload batch: name, reported size, and the in-memory
buffer (`none` models a missing `file.buffer`). -/
structure UploadFile where
  originalname : String
  size : Nat
  buffer : Option (List Nat)
  deriving DecidableEq, Repr

/-- Outcome status of one file of a batch, as written into the response. -/
inductive FileStatus where
  | completed
  | failed
  deriving DecidableEq, Repr

/-- One entry of the `results` array of the `POST /api/upload` response. -/
structure FileResult where
  filename : String
  status : FileStatus
  errorMsg : Option String
  deriving DecidableEq, Repr

/-- Models the `for (const file of files)` loop of the `POST /api/upload`
handler: files are processed sequentially; a missing buffer or a thrown
compression error produces a failed entry carrying the error message and the
loop continues with the next file. -/
def processFiles (p : ProviderBehavior) :
    List UploadFile → TinypngConfig → List FileResult × TinypngConfig
  | [], c => ([], c)
  | file :: rest, c =>
    match file.buffer with
    | none =>
      let r := processFiles p rest c
      ({ filename := file.originalname, status := FileStatus.failed,
         errorMsg := some "File buffer is missing" } :: r.1, r.2)
    | some buf =>
      match compressImage p c buf with
      | (Except.ok _, c1) =>
        let r := processFiles p rest c1
        ({ filename := file.originalname, status := FileStatus.completed,
           errorMsg := none } :: r.1, r.2)
      | (Except.error e, c1) =>
        let r := processFiles p rest c1
        ({ filename := file.originalname, status := FileStatus.failed,
           errorMsg := some (errorMessage e) } :: r.1, r.2)

/-- Total number of usage increments recorded in a configuration: the sum of all
usage-table values. -/
def totalUsed (c : TinypngConfig) : Nat :=
  (c.rateLimits.used.map (fun kv => kv.2)).sum

/-- Abstract ledger operations used to reason about call sequences against the
key manager. -/
inductive LedgerOp where
  | select
  | record (token : String)
  | add (token : String)
  | remove (token : String)
  deriving DecidableEq, Repr

/-- Effect of one ledger operation on the key-manager state. -/
def applyOp (c : TinypngConfig) : LedgerOp → TinypngConfig
  | LedgerOp.select => (getNextAvailableKey c).2
  | LedgerOp.record t => recordUsage c t
  | LedgerOp.add t => addApiKey c t
  | LedgerOp.remove t => removeApiKey c t

/-- Effect of a sequence of ledger operations, applied left to right. -/
def applyOps (c : TinypngConfig) (ops : List LedgerOp) : TinypngConfig :=
  ops.foldl applyOp c

/-- Holds for the add and remove operations only. -/
def isAddRemove : LedgerOp → Bool
  | LedgerOp.add _ => true
  | LedgerOp.remove _ => true
  | _ => false

/-- Valid rotation state: the cursor is a valid index, or the sequence is empty
with the cursor at the start. -/
abbrev CursorOk (c : TinypngConfig) : Prop :=
  c.currentIndex < c.keys.length ∨ (c.keys = [] ∧ c.currentIndex = 0)

/-- Usage discipline: tokens outside the key sequence have no recorded usage. -/
abbrev UsedOk (c : TinypngConfig) : Prop :=
  ∀ t, t ∉ c.keys → getUsed c.rateLimits.used t = 0

/-- Safety of one ledger operation in a given state, for usage monotonicity:
usage is only recorded for tokens currently in the sequence, and keys are not
removed. -/
def opSafe (c : TinypngConfig) : LedgerOp → Bool
  | LedgerOp.record t => decide (t ∈ c.keys)
  | LedgerOp.remove _ => false
  | _ => true

/-- Safety of a whole operation sequence, checked along the states it visits. -/
def safeOps : TinypngConfig → List LedgerOp → Bool
  | _, [] => true
  | c, op :: rest => opSafe c op && safeOps (applyOp c op) rest

/-- Named configurations used in concrete scenarios. `twoFreshConfig` has two
credentials with ceilings 500 and no recorded usage, cursor at the first. -/
def twoFreshConfig : TinypngConfig := ⟨["keyA", "keyB"], 0, ⟨500, []⟩⟩

/-- One credential with ceiling 1 and usage already 1. -/
def exhaustedOneConfig : TinypngConfig := ⟨["K"], 0, ⟨1, [("K", 1)]⟩⟩

/-- Configuration with an empty key sequence and empty usage table. -/
def emptyKeysConfig : TinypngConfig := ⟨[], 0, ⟨500, []⟩⟩

/-- Provider behaviour for the three-file batch scenario: validation always
succeeds, compression throws a server error exactly on the payload `[2]`. -/
def batchProvider : ProviderBehavior :=
  { validate := fun _ => Except.ok (),
    compress := fun _ buffer =>
      if buffer = [2] then Except.error (TinifyError.serverError "Internal Server Error")
      else Except.ok [0] }

/-- Batch of three files; the second carries the payload on which the provider
fails. -/
def batchFiles : List UploadFile :=
  [⟨"a.png", 1, some [1]⟩, ⟨"b.png", 1, some [2]⟩, ⟨"c.png", 1, some [3]⟩]

/-- One key with ample headroom for the batch scenario. -/
def batchConfig : TinypngConfig := ⟨["K"], 0, ⟨500, []⟩⟩

/-! ### Lemmas about the usage table -/

theorem lookupUsed_setUsed_self (m : UsedMap) (key : String) (v : Nat) :
    lookupUsed (setUsed m key v) key = some v := by
  induction m with
  | nil => simp [setUsed, lookupUsed]
  | cons kv rest ih =>
    obtain ⟨k, w⟩ := kv
    by_cases h : k = key
    · simp [setUsed, lookupUsed, h]
    · simp [setUsed, lookupUsed, h, ih]

theorem lookupUsed_setUsed_other (m : UsedMap) (key s : String) (v : Nat)
    (hne : s ≠ key) : lookupUsed (setUsed m key v) s = lookupUsed m s := by
  induction m with
  | nil => simp [setUsed, lookupUsed, Ne.symm hne]
  | cons kv rest ih =>
    obtain ⟨k, w⟩ := kv
    by_cases h : k = key
    · subst h
      simp [setUsed, lookupUsed, Ne.symm hne]
    · simp [setUsed, lookupUsed, h, ih]

theorem getUsed_setUsed_self (m : UsedMap) (key : String) (v : Nat) :
    getUsed (setUsed m key v) key = v := by
  simp [getUsed, lookupUsed_setUsed_self]

theorem getUsed_setUsed_other (m : UsedMap) (key s : String) (v : Nat)
    (hne : s ≠ key) : getUsed (setUsed m key v) s = getUsed m s := by
  simp [getUsed, lookupUsed_setUsed_other m key s v hne]

theorem getUsed_recordUsage_self (c : TinypngConfig) (t : String) :
    getUsed (recordUsage c t).rateLimits.used t = getUsed c.rateLimits.used t + 1 := by
  unfold recordUsage
  by_cases h : getUsed c.rateLimits.used t = 0
  · simp [h, getUsed_setUsed_self]
  · simp [h, getUsed_setUsed_self]

theorem getUsed_recordUsage_other (c : TinypngConfig) (t s : String) (hne : s ≠ t) :
    getUsed (recordUsage c t).rateLimits.used s = getUsed c.rateLimits.used s := by
  unfold recordUsage
  by_cases h : getUsed c.rateLimits.used t = 0
  · simp [h, getUsed_setUsed_other _ _ _ _ hne]
  · simp [h, getUsed_setUsed_other _ _ _ _ hne]

theorem recordUsage_keys (c : TinypngConfig) (t : String) :
    (recordUsage c t).keys = c.keys := rfl

theorem recordUsage_monthly (c : TinypngConfig) (t : String) :
    (recordUsage c t).rateLimits.monthly = c.rateLimits.monthly := rfl

/-! ### Lemmas about the selection scan -/

theorem getNextAvailableKey_keys (c : TinypngConfig) :
    ((getNextAvailableKey c).2).keys = c.keys := by
  unfold getNextAvailableKey
  split <;> rfl

theorem getNextAvailableKey_rateLimits (c : TinypngConfig) :
    ((getNextAvailableKey c).2).rateLimits = c.rateLimits := by
  unfold getNextAvailableKey
  split <;> rfl

theorem scanStep_eq_some (keys : List String) (cur monthly : Nat) (used : UsedMap)
    (i idx : Nat) (key : String)
    (h : scanStep keys cur monthly used i = some (idx, key)) :
    keys[idx]? = some key ∧ getUsed used key < monthly := by
  simp only [scanStep] at h
  split at h
  · next key0 hget =>
    split at h
    · next hlt =>
      simp only [Option.some.injEq, Prod.mk.injEq] at h
      obtain ⟨h1, h2⟩ := h
      subst h1
      subst h2
      exact ⟨hget, hlt⟩
    · exact absurd h (by simp)
  · exact absurd h (by simp)

theorem getNextAvailableKey_cases (c : TinypngConfig) :
    getNextAvailableKey c = (none, c) ∨
    ∃ idx key, (List.range c.keys.length).findSome?
        (scanStep c.keys c.currentIndex c.rateLimits.monthly c.rateLimits.used)
        = some (idx, key) ∧
      getNextAvailableKey c = (some key, { c with currentIndex := idx }) := by
  unfold getNextAvailableKey
  cases hfind : (List.range c.keys.length).findSome?
      (scanStep c.keys c.currentIndex c.rateLimits.monthly c.rateLimits.used) with
  | none => exact Or.inl rfl
  | some v =>
    obtain ⟨idx, key⟩ := v
    exact Or.inr ⟨idx, key, rfl, rfl⟩

theorem getNextAvailableKey_none (c : TinypngConfig)
    (h : (getNextAvailableKey c).1 = none) : getNextAvailableKey c = (none, c) := by
  rcases getNextAvailableKey_cases c with hc | ⟨idx, key, _, heq⟩
  · exact hc
  · rw [heq] at h
    exact absurd h (by simp)

theorem getNextAvailableKey_found (c : TinypngConfig) (key : String) (c2 : TinypngConfig)
    (h : getNextAvailableKey c = (some key, c2)) :
    c2.keys = c.keys ∧ c2.rateLimits = c.rateLimits ∧
    c.keys[c2.currentIndex]? = some key ∧
    getUsed c.rateLimits.used key < c.rateLimits.monthly := by
  rcases getNextAvailableKey_cases c with hc | ⟨idx, key0, hfind, heq⟩
  · rw [hc] at h
    exact absurd h (by simp)
  · rw [heq] at h
    simp only [Prod.mk.injEq, Option.some.injEq] at h
    obtain ⟨hk, hc2⟩ := h
    subst hk
    subst hc2
    obtain ⟨i, _, hstep⟩ := List.exists_of_findSome?_eq_some hfind
    obtain ⟨hget, hlt⟩ := scanStep_eq_some _ _ _ _ _ _ _ hstep
    exact ⟨rfl, rfl, hget, hlt⟩

theorem getNextAvailableKey_sticky (c : TinypngConfig) (key : String) (c2 : TinypngConfig)
    (h : getNextAvailableKey c = (some key, c2)) :
    getNextAvailableKey c2 = (some key, c2) := by
  obtain ⟨hkeys, hrl, hget, hlt⟩ := getNextAvailableKey_found c key c2 h
  have hidxlt : c2.currentIndex < c.keys.length := by
    rcases List.getElem?_eq_some_iff.mp hget with ⟨hh, _⟩
    exact hh
  have hstep0 : scanStep c2.keys c2.currentIndex c2.rateLimits.monthly c2.rateLimits.used 0
      = some (c2.currentIndex, key) := by
    simp only [scanStep, hkeys, hrl, Nat.add_zero, Nat.mod_eq_of_lt hidxlt, hget]
    rw [if_pos hlt]
  have hlen : 0 < c2.keys.length := by
    rw [hkeys]
    exact Nat.lt_of_le_of_lt (Nat.zero_le _) hidxlt
  obtain ⟨n, hn⟩ : ∃ n, c2.keys.length = n + 1 :=
    ⟨c2.keys.length - 1, (Nat.succ_pred_eq_of_pos hlen).symm⟩
  have hfind : (List.range c2.keys.length).findSome?
      (scanStep c2.keys c2.currentIndex c2.rateLimits.monthly c2.rateLimits.used)
      = some (c2.currentIndex, key) := by
    rw [hn, List.range_succ_eq_map, List.findSome?_cons, hstep0]
  unfold getNextAvailableKey
  rw [hfind]

/-! ### Preservation of cursor validity -/

theorem cursorOk_addApiKey (c : TinypngConfig) (t : String) (h : CursorOk c) :
    CursorOk (addApiKey c t) := by
  unfold addApiKey
  split
  · exact h
  · rcases h with h | ⟨hk, hi⟩
    · left
      simp only [List.length_append, List.length_cons, List.length_nil]
      omega
    · left
      simp [hk, hi]

theorem cursorOk_removeApiKey (c : TinypngConfig) (t : String) :
    CursorOk (removeApiKey c t) := by
  simp only [removeApiKey]
  by_cases h : (c.keys.filter (fun key => key != t)).length ≤ c.currentIndex
  · rw [if_pos h]
    by_cases hk : c.keys.filter (fun key => key != t) = []
    · exact Or.inr ⟨hk, rfl⟩
    · exact Or.inl (List.length_pos.mpr hk)
  · rw [if_neg h]
    exact Or.inl (Nat.lt_of_not_le h)

theorem cursorOk_applyOps (ops : List LedgerOp) :
    ∀ c : TinypngConfig, CursorOk c → (∀ op ∈ ops, isAddRemove op = true) →
      CursorOk (applyOps c ops) := by
  induction ops with
  | nil =>
    intro c h _
    exact h
  | cons op rest ih =>
    intro c h hops
    have hop := hops op (List.mem_cons_self op rest)
    have hrest : ∀ o ∈ rest, isAddRemove o = true :=
      fun o ho => hops o (List.mem_cons_of_mem _ ho)
    have hstep : CursorOk (applyOp c op) := by
      cases op with
      | add t => exact cursorOk_addApiKey c t h
      | remove t => exact cursorOk_removeApiKey c t
      | select => simp [isAddRemove] at hop
      | record t => simp [isAddRemove] at hop
    exact ih (applyOp c op) hstep hrest

/-! ### Preservation of usage monotonicity -/

theorem applyOp_used_mono (c : TinypngConfig) (op : LedgerOp) (hOk : UsedOk c)
    (hop : opSafe c op = true) :
    (∀ t, getUsed c.rateLimits.used t ≤ getUsed (applyOp c op).rateLimits.used t) ∧
      UsedOk (applyOp c op) := by
  cases op with
  | select =>
    constructor
    · intro t
      rw [applyOp, getNextAvailableKey_rateLimits]
    · intro t ht
      rw [applyOp, getNextAvailableKey_keys] at ht
      rw [applyOp, getNextAvailableKey_rateLimits]
      exact hOk t ht
  | record t =>
    have hmem : t ∈ c.keys := of_decide_eq_true hop
    constructor
    · intro s
      by_cases hst : s = t
      · subst hst
        rw [applyOp, getUsed_recordUsage_self]
        exact Nat.le_succ _
      · rw [applyOp, getUsed_recordUsage_other c t s hst]
    · intro s hs
      rw [applyOp, recordUsage_keys] at hs
      have hst : s ≠ t := fun heq => hs (heq ▸ hmem)
      rw [applyOp, getUsed_recordUsage_other c t s hst]
      exact hOk s hs
  | add t =>
    rw [applyOp]
    unfold addApiKey
    by_cases hmem : t ∈ c.keys
    · rw [if_pos hmem]
      exact ⟨fun s => le_refl _, hOk⟩
    · rw [if_neg hmem]
      constructor
      · intro s
        by_cases hst : s = t
        · subst hst
          simp only [getUsed_setUsed_self, hOk s hmem, le_refl]
        · simp only [getUsed_setUsed_other c.rateLimits.used t s 0 hst, le_refl]
      · intro s hs
        simp only [List.mem_append, List.mem_singleton, not_or] at hs
        obtain ⟨hs1, hs2⟩ := hs
        simp only [getUsed_setUsed_other c.rateLimits.used t s 0 hs2]
        exact hOk s hs1
  | remove t => simp [opSafe] at hop

theorem applyOps_used_mono (ops : List LedgerOp) :
    ∀ c : TinypngConfig, UsedOk c → safeOps c ops = true →
      (∀ t, getUsed c.rateLimits.used t ≤ getUsed (applyOps c ops).rateLimits.used t) ∧
        UsedOk (applyOps c ops) := by
  induction ops with
  | nil =>
    intro c h _
    exact ⟨fun t => le_refl _, h⟩
  | cons op rest ih =>
    intro c h hsafe
    rw [safeOps, Bool.and_eq_true] at hsafe
    obtain ⟨h1, h2⟩ := hsafe
    obtain ⟨hmono, hOk1⟩ := applyOp_used_mono c op h h1
    obtain ⟨hmono2, hOk2⟩ := ih (applyOp c op) hOk1 h2
    exact ⟨fun t => le_trans (hmono t) (hmono2 t), hOk2⟩

/-! ### Claim theorems -/

/-- C1, counterexample: the claim says that after a selection the cursor is set
so that the next call starts past the returned credential, and that two fresh
credentials A, B with initial cursor order A, B give A then B on two consecutive
calls. On the code, with two credentials of ceiling 500 and usage 0 and the
cursor at the first, both consecutive calls return the first credential and the
second call does not return the second credential. -/
theorem claim_C1_counterexample :
    (getNextAvailableKey twoFreshConfig).1 = some "keyA" ∧
    (getNextAvailableKey (getNextAvailableKey twoFreshConfig).2).1 = some "keyA" ∧
    (getNextAvailableKey (getNextAvailableKey twoFreshConfig).2).1 ≠ some "keyB" := by
  decide

/-- C1, amended: after `getNextAvailableKey` returns a credential, the persisted
cursor is set to the position of that credential, so the next call starts at it
rather than past it: the key sequence and rate limits are unchanged, the cursor
indexes the returned key, and the immediately following call returns the same
credential again with the state unchanged (selection is sticky until exhaustion,
not round-robin); in particular, with two fresh credentials A, B and the cursor
at A, two consecutive calls return A then A. -/
theorem claim_C1_amended :
    (∀ (c : TinypngConfig) (key : String) (c2 : TinypngConfig),
       getNextAvailableKey c = (some key, c2) →
       c2.keys = c.keys ∧ c2.rateLimits = c.rateLimits ∧
       c2.keys[c2.currentIndex]? = some key ∧
       getNextAvailableKey c2 = (some key, c2)) ∧
    (getNextAvailableKey twoFreshConfig).1 = some "keyA" ∧
    (getNextAvailableKey (getNextAvailableKey twoFreshConfig).2).1 = some "keyA" := by
  refine ⟨?_, by decide, by decide⟩
  intro c key c2 h
  obtain ⟨hkeys, hrl, hget, _⟩ := getNextAvailableKey_found c key c2 h
  refine ⟨hkeys, hrl, ?_, getNextAvailableKey_sticky c key c2 h⟩
  rw [hkeys]
  exact hget

/-- C1, witness for the amended theorem at a concrete input. -/
theorem claim_C1_amended_witness :
    twoFreshConfig.keys[twoFreshConfig.currentIndex]? = some "keyA" ∧
    getNextAvailableKey twoFreshConfig = (some "keyA", twoFreshConfig) :=
  ⟨(claim_C1_amended.1 twoFreshConfig "keyA" twoFreshConfig (by decide)).2.2.1,
   (claim_C1_amended.1 twoFreshConfig "keyA" twoFreshConfig (by decide)).2.2.2⟩

/-- C2, counterexample: across the sequence `recordUsage "X"` then
`addApiKey "X"` starting from an empty ledger, the usage count of token X goes
from 1 back to 0: `addApiKey` resets the usage entry of a token that is not yet
in the key sequence, so usage is not monotonically non-decreasing across
arbitrary sequences of selection, recording and adding. -/
theorem claim_C2_counterexample :
    getUsed (applyOps emptyKeysConfig [LedgerOp.record "X"]).rateLimits.used "X" = 1 ∧
    getUsed (applyOps emptyKeysConfig
        [LedgerOp.record "X", LedgerOp.add "X"]).rateLimits.used "X" = 0 := by
  decide

/-- C2, amended: one call to `recordUsage t` increases the usage count of `t` by
exactly 1 and leaves every other count unchanged; and across any sequence of
select, record and add operations in which usage is only recorded for tokens
currently in the key sequence, every usage count is monotonically non-decreasing,
provided tokens outside the sequence start with no recorded usage. -/
theorem claim_C2_amended :
    (∀ (c : TinypngConfig) (t : String),
       getUsed (recordUsage c t).rateLimits.used t = getUsed c.rateLimits.used t + 1 ∧
       ∀ s, s ≠ t → getUsed (recordUsage c t).rateLimits.used s = getUsed c.rateLimits.used s) ∧
    (∀ (c : TinypngConfig) (ops : List LedgerOp) (t : String),
       UsedOk c → safeOps c ops = true →
       getUsed c.rateLimits.used t ≤ getUsed (applyOps c ops).rateLimits.used t) := by
  constructor
  · intro c t
    exact ⟨getUsed_recordUsage_self c t, fun s hs => getUsed_recordUsage_other c t s hs⟩
  · intro c ops t hOk hsafe
    exact (applyOps_used_mono ops c hOk hsafe).1 t

/-- C2, witness for the amended theorem at a concrete input. -/
theorem claim_C2_amended_witness :
    getUsed (recordUsage twoFreshConfig "keyA").rateLimits.used "keyB"
      = getUsed twoFreshConfig.rateLimits.used "keyB" ∧
    getUsed twoFreshConfig.rateLimits.used "keyA"
      ≤ getUsed (applyOps twoFreshConfig
          [LedgerOp.record "keyA", LedgerOp.select, LedgerOp.add "Z"]).rateLimits.used "keyA" :=
  ⟨(claim_C2_amended.1 twoFreshConfig "keyA").2 "keyB" (by decide),
   claim_C2_amended.2 twoFreshConfig
     [LedgerOp.record "keyA", LedgerOp.select, LedgerOp.add "Z"] "keyA"
     (fun _ _ => rfl) (by decide)⟩

/-- C3: starting from a valid state, after any sequence of add and remove
operations the cursor is a valid index into the key sequence or the sequence is
empty; and a removal whose shortened sequence no longer covers the cursor resets
the cursor to the start. -/
theorem claim_C3_cursor_valid (c : TinypngConfig) (ops : List LedgerOp)
    (hvalid : CursorOk c) (hops : ∀ op ∈ ops, isAddRemove op = true) :
    ((applyOps c ops).keys = [] ∨
      (applyOps c ops).currentIndex < (applyOps c ops).keys.length) ∧
    (∀ (d : TinypngConfig) (t : String),
       (d.keys.filter (fun key => key != t)).length ≤ d.currentIndex →
       (removeApiKey d t).currentIndex = 0) := by
  constructor
  · rcases cursorOk_applyOps ops c hvalid hops with h | ⟨hk, _⟩
    · exact Or.inr h
    · exact Or.inl hk
  · intro d t h
    simp only [removeApiKey]
    rw [if_pos h]

/-- C3, witness at a concrete input. -/
theorem claim_C3_witness :
    (applyOps twoFreshConfig [LedgerOp.add "Z", LedgerOp.remove "keyA"]).keys = [] ∨
    (applyOps twoFreshConfig [LedgerOp.add "Z", LedgerOp.remove "keyA"]).currentIndex
      < (applyOps twoFreshConfig [LedgerOp.add "Z", LedgerOp.remove "keyA"]).keys.length :=
  (claim_C3_cursor_valid twoFreshConfig [LedgerOp.add "Z", LedgerOp.remove "keyA"]
    (by decide) (by decide)).1

/-- C4: whenever `getNextAvailableKey` returns a credential, its usage is
strictly below the monthly ceiling (so a credential at or above its ceiling is
never returned); and with one credential of ceiling 1 and usage 1 the selection
reports none available and leaves the state unchanged. -/
theorem claim_C4_eligibility :
    (∀ (c : TinypngConfig) (key : String) (c2 : TinypngConfig),
       getNextAvailableKey c = (some key, c2) →
       getUsed c.rateLimits.used key < c.rateLimits.monthly) ∧
    getNextAvailableKey exhaustedOneConfig = (none, exhaustedOneConfig) := by
  constructor
  · intro c key c2 h
    exact (getNextAvailableKey_found c key c2 h).2.2.2
  · decide

/-- C4, witness at a concrete input. -/
theorem claim_C4_witness :
    getUsed twoFreshConfig.rateLimits.used "keyA" < twoFreshConfig.rateLimits.monthly :=
  claim_C4_eligibility.1 twoFreshConfig "keyA" twoFreshConfig (by decide)

/-- C5: when every credential in the sequence is at or above the monthly
ceiling, `getNextAvailableKey` returns the none signal and the state, cursor
included, is unchanged. -/
theorem claim_C5_exhausted (c : TinypngConfig)
    (h : ∀ key ∈ c.keys, c.rateLimits.monthly ≤ getUsed c.rateLimits.used key) :
    getNextAvailableKey c = (none, c) := by
  have hfind : (List.range c.keys.length).findSome?
      (scanStep c.keys c.currentIndex c.rateLimits.monthly c.rateLimits.used) = none := by
    rw [List.findSome?_eq_none_iff]
    intro i _
    simp only [scanStep]
    cases hget : c.keys[(c.currentIndex + i) % c.keys.length]? with
    | none => rfl
    | some key =>
      have hmem : key ∈ c.keys := by
        obtain ⟨hlt, heq⟩ := List.getElem?_eq_some_iff.mp hget
        exact heq ▸ List.getElem_mem hlt
      have hnlt : ¬ getUsed c.rateLimits.used key < c.rateLimits.monthly :=
        Nat.not_lt.mpr (h key hmem)
      simp [hnlt]
  unfold getNextAvailableKey
  rw [hfind]

/-- C5, witness at a concrete input. -/
theorem claim_C5_witness :
    getNextAvailableKey exhaustedOneConfig = (none, exhaustedOneConfig) :=
  claim_C5_exhausted exhaustedOneConfig (by decide)

/-- Provider whose validation always fails with a client error, used as a
concrete witness input. -/
def failingValidateProvider : ProviderBehavior :=
  { validate := fun _ => Except.error (TinifyError.clientError "Bad request"),
    compress := fun _ _ => Except.ok [] }

/-- C6: when the provider fails at validation, or validates and then fails at
compression, `compressImage` propagates the classified failure and performs no
usage recording: the final state is the post-selection state, whose usage table
equals the pre-call one. The classification maps each tinify error class to the
matching provider error constructor. -/
theorem claim_C6_no_usage_on_failure :
    (∀ (p : ProviderBehavior) (c : TinypngConfig) (buffer : List Nat)
       (key : String) (c1 : TinypngConfig) (e : TinifyError),
       getNextAvailableKey c = (some key, c1) →
       (p.validate key = Except.error e ∨
        (p.validate key = Except.ok () ∧ p.compress key buffer = Except.error e)) →
       compressImage p c buffer = (Except.error (classifyTinifyError e), c1) ∧
       c1.rateLimits.used = c.rateLimits.used) ∧
    (∀ m, classifyTinifyError (TinifyError.clientError m)
      = CompressionError.providerClientError m) ∧
    (∀ m, classifyTinifyError (TinifyError.accountError m)
      = CompressionError.providerAccountError m) ∧
    (∀ m, classifyTinifyError (TinifyError.serverError m)
      = CompressionError.providerServerError m) ∧
    (∀ m, classifyTinifyError (TinifyError.connectionError m)
      = CompressionError.providerConnectionError m) := by
  refine ⟨?_, fun m => rfl, fun m => rfl, fun m => rfl, fun m => rfl⟩
  intro p c buffer key c1 e hsel hfail
  have hrl := getNextAvailableKey_rateLimits c
  rw [hsel] at hrl
  have hused : c1.rateLimits.used = c.rateLimits.used := congrArg RateLimits.used hrl
  refine ⟨?_, hused⟩
  unfold compressImage
  rw [hsel]
  rcases hfail with hv | ⟨hv, hc⟩
  · simp only [hv]
  · simp only [hv, hc]

/-- C6, witness: provider validation fails with a client error; the result is
the classified client failure and the state is unchanged. -/
theorem claim_C6_witness :
    compressImage failingValidateProvider twoFreshConfig [1]
      = (Except.error (CompressionError.providerClientError "Bad request"), twoFreshConfig) ∧
    twoFreshConfig.rateLimits.used = twoFreshConfig.rateLimits.used :=
  claim_C6_no_usage_on_failure.1 failingValidateProvider twoFreshConfig [1] "keyA"
    twoFreshConfig (TinifyError.clientError "Bad request") (by decide) (Or.inl rfl)

/-- C7: when no credential is available, `compressImage` fails with the quota
exhausted error, the result does not depend on the provider behaviour (no
provider call is attempted), and the usage table is unchanged. -/
theorem claim_C7_quota_exhausted (p q : ProviderBehavior) (c : TinypngConfig)
    (buffer : List Nat) (h : (getNextAvailableKey c).1 = none) :
    compressImage p c buffer = (Except.error CompressionError.quotaExhausted, c) ∧
    compressImage p c buffer = compressImage q c buffer ∧
    ((compressImage p c buffer).2).rateLimits.used = c.rateLimits.used := by
  have hsel := getNextAvailableKey_none c h
  have h1 : compressImage p c buffer = (Except.error CompressionError.quotaExhausted, c) := by
    unfold compressImage
    rw [hsel]
  have h2 : compressImage q c buffer = (Except.error CompressionError.quotaExhausted, c) := by
    unfold compressImage
    rw [hsel]
  rw [h1, h2]
  exact ⟨rfl, rfl, rfl⟩

/-- C7, witness at a concrete input. -/
theorem claim_C7_witness :
    compressImage batchProvider exhaustedOneConfig [1]
      = (Except.error CompressionError.quotaExhausted, exhaustedOneConfig) :=
  (claim_C7_quota_exhausted batchProvider failingValidateProvider exhaustedOneConfig [1]
    (by decide)).1

/-- C8: every file of a batch is attempted and reported independently, in order
(one result entry per file, carrying its name); and in the concrete batch of 3
files where the provider throws a server error on the second payload, the
results are completed, failed with the server error message, completed, and
exactly 2 usage increments are recorded in total. -/
theorem claim_C8_batch_independence :
    (∀ (p : ProviderBehavior) (files : List UploadFile) (c : TinypngConfig),
       ((processFiles p files c).1).length = files.length ∧
       ((processFiles p files c).1).map FileResult.filename
         = files.map UploadFile.originalname) ∧
    ((processFiles batchProvider batchFiles batchConfig).1).map FileResult.status
      = [FileStatus.completed, FileStatus.failed, FileStatus.completed] ∧
    ((processFiles batchProvider batchFiles batchConfig).1).map FileResult.errorMsg
      = [none, some "TinyPNG server error: Internal Server Error", none] ∧
    totalUsed (processFiles batchProvider batchFiles batchConfig).2 = 2 ∧
    totalUsed batchConfig = 0 := by
  refine ⟨?_, by decide, by decide, by decide, by decide⟩
  intro p files
  induction files with
  | nil =>
    intro c
    exact ⟨rfl, rfl⟩
  | cons f rest ih =>
    intro c
    cases hb : f.buffer with
    | none =>
      obtain ⟨h1, h2⟩ := ih c
      simp [processFiles, hb, h1, h2]
    | some buf =>
      rcases hcomp : compressImage p c buf with ⟨r, c1⟩
      cases r with
      | ok v =>
        obtain ⟨h1, h2⟩ := ih c1
        simp [processFiles, hb, hcomp, h1, h2]
      | error e =>
        obtain ⟨h1, h2⟩ := ih c1
        simp [processFiles, hb, hcomp, h1, h2]

/-- C9: the monthly ceiling is one single global value: every row of
`getKeyUsage` reports the same limit, and no ledger operation changes it
(`addApiKey` accepts no per-credential ceiling). -/
theorem claim_C9_single_ceiling :
    (∀ (c : TinypngConfig) (entry : KeyUsage), entry ∈ getKeyUsage c →
       entry.limit = c.rateLimits.monthly) ∧
    (∀ (c : TinypngConfig) (t : String),
       (addApiKey c t).rateLimits.monthly = c.rateLimits.monthly) ∧
    (∀ (c : TinypngConfig) (t : String),
       (recordUsage c t).rateLimits.monthly = c.rateLimits.monthly) ∧
    (∀ (c : TinypngConfig) (t : String),
       (removeApiKey c t).rateLimits.monthly = c.rateLimits.monthly) ∧
    (∀ c : TinypngConfig,
       ((getNextAvailableKey c).2).rateLimits.monthly = c.rateLimits.monthly) := by
  refine ⟨?_, ?_, fun c t => recordUsage_monthly c t, fun c t => rfl,
    fun c => by rw [getNextAvailableKey_rateLimits]⟩
  · intro c entry hmem
    simp only [getKeyUsage, List.mem_map] at hmem
    obtain ⟨key, _, heq⟩ := hmem
    rw [← heq]
  · intro c t
    unfold addApiKey
    split <;> rfl

/-- C9, witness at a concrete input. -/
theorem claim_C9_witness :
    ({ key := "keyA", used := 0, limit := 500 } : KeyUsage).limit
      = twoFreshConfig.rateLimits.monthly :=
  claim_C9_single_ceiling.1 twoFreshConfig { key := "keyA", used := 0, limit := 500 }
    (by decide)

/-- C10: `recordUsage` performs no membership check: for every token, registered
or not, it adds exactly 1 to the usage count of that token, leaves every other
count unchanged, and creates the entry with value 1 when it was absent. -/
theorem claim_C10_record_unregistered (c : TinypngConfig) (t : String) :
    getUsed (recordUsage c t).rateLimits.used t = getUsed c.rateLimits.used t + 1 ∧
    (∀ s, s ≠ t → getUsed (recordUsage c t).rateLimits.used s = getUsed c.rateLimits.used s) ∧
    (lookupUsed c.rateLimits.used t = none →
      lookupUsed (recordUsage c t).rateLimits.used t = some 1) := by
  refine ⟨getUsed_recordUsage_self c t,
    fun s hs => getUsed_recordUsage_other c t s hs, ?_⟩
  intro habs
  have h0 : getUsed c.rateLimits.used t = 0 := by
    simp [getUsed, habs]
  simp only [recordUsage]
  rw [if_pos h0, getUsed_setUsed_self, lookupUsed_setUsed_self]

/-- C10, witness: recording usage for a token with an empty key sequence, so the
token is certainly unregistered; the entry is created at 1. -/
theorem claim_C10_witness :
    getUsed (recordUsage emptyKeysConfig "X").rateLimits.used "X"
      = getUsed emptyKeysConfig.rateLimits.used "X" + 1 ∧
    getUsed (recordUsage emptyKeysConfig "X").rateLimits.used "Y"
      = getUsed emptyKeysConfig.rateLimits.used "Y" ∧
    lookupUsed (recordUsage emptyKeysConfig "X").rateLimits.used "X" = some 1 :=
  ⟨(claim_C10_record_unregistered emptyKeysConfig "X").1,
   (claim_C10_record_unregistered emptyKeysConfig "X").2.1 "Y" (by decide),
   (claim_C10_record_unregistered emptyKeysConfig "X").2.2 (by decide)⟩

end OptimizeImage
